import Mathlib

/-!
Verification development for the smcli wallet secrets engine.

The repository source under scrutiny is the CLI layer in cmd/wallet.go; the
wallet package it calls (mnemonic parsing, hierarchical key derivation, the
encrypted container, address encoding) is specified in spec.md.  Definitions
below that embed that missing package carry a doc comment starting
"Modelled from the spec:".  Definitions embedding cmd/wallet.go itself are
translated directly from that file.
-/

set_option maxRecDepth 8192

namespace Smcli

/-- A keypair as in the spec data model: public bytes, private bytes (empty
when hardware-backed), a hierarchical derivation path, a display name and a
creation timestamp.  Bytes are modelled as lists of naturals. -/
structure Keypair where
  public : List Nat
  priv : List Nat
  path : List Nat
  displayName : String
  created : String
deriving DecidableEq, Repr

/-- Secrets: an optional master keypair at the root plus the ordered child
accounts. -/
structure Secrets where
  masterKeypair : Option Keypair
  accounts : List Keypair
deriving DecidableEq, Repr

/-- A wallet: Secrets plus the originating mnemonic (word-index sequence),
absent when hardware-backed. -/
structure Wallet where
  secrets : Secrets
  mnemonic : Option (List Nat)
deriving DecidableEq, Repr

/-- The error taxonomy of spec section 7, restricted to the variants the
claims touch.  `debugAuthMismatch` is the diagnostic-mode variant of an
authentication failure. -/
inductive WalletError where
  | invalidMnemonic
  | invalidAccountCount
  | wrongPasswordOrCorruptFile
  | unsupportedFormatVersion
  | encodingError
  | debugAuthMismatch
deriving DecidableEq, Repr

/-- Outcome of the signing path in cmd/wallet.go.  `badPrivateKeyPanic`
models the panic the ed25519 primitive raises on a private key whose length
is not the required 64 bytes; `emptyAccountsPanic` models the out-of-range
index panic when the wallet has no accounts. -/
inductive SignFailure where
  | badPrivateKeyPanic
  | emptyAccountsPanic
deriving DecidableEq, Repr

/-- Injective packing of a byte list into a single natural, used by the
key-derivation stand-ins below. -/
def packList : List Nat → Nat
  | [] => 0
  | b :: rest => Nat.pair b (packList rest) + 1

/-- A cheap deterministic mixing of a byte list into a 64-bit word, used by
the pseudo-random stand-ins below where only determinism matters. -/
def foldHash (xs : List Nat) : Nat :=
  xs.foldl (fun acc b => (acc * 131 + b + 1) % 2 ^ 64) 7

/-- Modelled from the spec: the fixed coin-type/account derivation path
template of section 4.2; child account i has path ending in the final index
component i. -/
def accountPathBase : List Nat := [44, 540, 0]

/-- Modelled from the spec: a deterministic pseudo-random byte expansion
standing in for the versioned key-derivation function of section 4.2 (the
real implementation, not present under src/, uses a cryptographic hash). -/
def prfBytes (seed : List Nat) (tag : Nat) : List Nat :=
  (List.range 32).map (fun i => (foldHash seed + 2 * tag + i) % 256)

/-- Modelled from the spec: `derive_master(Seed) -> Keypair`, deterministic
derivation of the root keypair from the seed (section 4.2). -/
def deriveMaster (seed : List Nat) : Keypair :=
  { public := prfBytes seed 0
    priv := prfBytes seed 1
    path := accountPathBase.take 2
    displayName := "Master key"
    created := "" }

/-- Modelled from the spec: `derive_account(master, index) -> Keypair`,
deterministic derivation of the i-th child along the fixed path template,
differing only in the final index component (section 4.2). -/
def deriveAccount (master : Keypair) (i : Nat) : Keypair :=
  { public := prfBytes (master.priv ++ [i]) 0
    priv := prfBytes (master.priv ++ [i]) 1 ++ prfBytes (master.priv ++ [i]) 2
    path := accountPathBase ++ [i]
    displayName := "Account " ++ toString i
    created := "" }

/-- Modelled from the spec: `build_wallet(Seed, n) -> Wallet` (section 4.2):
derives the master keypair, then exactly n sequential child accounts with
ascending final path indices 0..n-1; fails with InvalidAccountCount when
n < 1. -/
def buildWallet (seed : List Nat) (n : Int) : Except WalletError Wallet :=
  if n < 1 then .error .invalidAccountCount
  else
    let master := deriveMaster seed
    .ok { secrets :=
            { masterKeypair := some master
              accounts := (List.range n.toNat).map (fun i => deriveAccount master i) }
          mnemonic := none }

/-- Modelled from the spec: `mnemonic_to_seed` (section 4.1), a deterministic
one-way stretch of the word sequence plus optional passphrase into a
fixed-length 64-byte seed (the real PBKDF2 implementation is not under
src/). -/
def mnemonicToSeed (m : List Nat) (passphrase : List Nat) : List Nat :=
  (List.range 64).map (fun i => (foldHash m + 3 * foldHash passphrase + i) % 256)

/-- Modelled from the spec: `derive_from_device(n) -> Wallet` (section 4.3):
queries the device for n sequential public keys along the same path scheme,
producing keypairs with Public set and Private permanently absent, and no
mnemonic.  The device is modelled as a function from the account index to
the public key bytes it reports. -/
def deriveFromDevice (devPub : Nat → List Nat) (n : Int) : Except WalletError Wallet :=
  if n < 1 then .error .invalidAccountCount
  else
    .ok { secrets :=
            { masterKeypair := none
              accounts := (List.range n.toNat).map (fun i =>
                { public := devPub i
                  priv := []
                  path := accountPathBase ++ [i]
                  displayName := "Ledger account " ++ toString i
                  created := "" }) }
          mnemonic := none }

/-! ## Mnemonic parsing (spec section 4.1) -/

/-- Size of the fixed BIP-39 wordlist; words are modelled by their index
into it, so a word is outside the wordlist exactly when its index is ≥ 2048. -/
def wordlistSize : Nat := 2048

/-- The standard supported mnemonic lengths (128-256 bits of entropy in
32-bit steps gives 12, 15, 18, 21 or 24 words). -/
def supportedLengths : List Nat := [12, 15, 18, 21, 24]

/-- Big-endian bit decomposition of the low k bits of a natural. -/
def bitsBE (k n : Nat) : List Bool :=
  (List.range k).map (fun i => n.testBit (k - 1 - i))

/-- The 11 bits a single mnemonic word contributes, most significant first. -/
def bitsOfWord (w : Nat) : List Bool := bitsBE 11 w

/-- Natural number denoted by a big-endian bit string. -/
def natOfBits (bs : List Bool) : Nat :=
  bs.foldl (fun acc b => 2 * acc + (if b then 1 else 0)) 0

/-- Modelled from the spec: the checksum recomputed over the encoded entropy
(section 4.1).  The real implementation hashes the entropy with SHA-256 and
takes the top bits; the hash is not under src/, so a deterministic stand-in
of the entropy bits is used. -/
def checksumFn (entropy : List Bool) (csLen : Nat) : List Bool :=
  bitsBE csLen ((natOfBits entropy + entropy.length) % 2 ^ csLen)

/-- True when the embedded checksum bits of the word sequence match the
value recomputed over the encoded entropy. -/
def mnemonicChecksumOk (ws : List Nat) : Bool :=
  let bits := ws.flatMap bitsOfWord
  let csLen := ws.length / 3
  decide (bits.drop (bits.length - csLen) = checksumFn (bits.take (bits.length - csLen)) csLen)

/-- Modelled from the spec: `parse_mnemonic(words) -> Mnemonic` (section
4.1): fails with InvalidMnemonic when the word count is not a supported
length, any word is outside the wordlist, or the embedded checksum does not
match; no key material is derived on the failure paths. -/
def parseMnemonic (ws : List Nat) : Except WalletError (List Nat) :=
  if ws.length ∈ supportedLengths then
    if ws.any (fun w => wordlistSize ≤ w) then .error .invalidMnemonic
    else if mnemonicChecksumOk ws then .ok ws
    else .error .invalidMnemonic
  else .error .invalidMnemonic

/-! ## Address codec (spec section 4.5) -/

/-- Modelled from the spec: the data-part encoding of a public key into a
fixed character set that excludes the separator character.  Stands in for
the bech32 data encoding, which is not under src/. -/
def addressData (pk : List Nat) : String :=
  String.mk (pk.flatMap (fun b => [Char.ofNat (97 + b / 26 % 26), Char.ofNat (97 + b % 26)]))

/-- Modelled from the spec: `pubkey_to_address(public_key, network_prefix)`
(section 4.5): the human-readable part, a separator, then the data part, so
the network identifier participates in the encoding. -/
def pubkeyToAddress (pk : List Nat) (hrp : String) : String :=
  hrp ++ "1" ++ addressData pk

/-! ## The signing path of cmd/wallet.go -/

/-- The ed25519 signing primitive as used by signCmd: the library rejects a
private key whose length is not 64 bytes by panicking, and otherwise
produces a signature that is a function of the key and the message. -/
def ed25519Sign (priv msg : List Nat) : Except SignFailure (List Nat) :=
  if priv.length = 64 then .ok (msg.map (fun b => (b + foldHash priv) % 256))
  else .error .badPrivateKeyPanic

/-- The signing path of signCmd in cmd/wallet.go: take child account 0 of
the opened wallet and sign the message with its private key, with no check
that the private key is present. -/
def signFirstAccount (w : Wallet) (msg : List Nat) : Except SignFailure (List Nat) :=
  match w.secrets.accounts with
  | [] => .error .emptyAccountsPanic
  | a :: _ => ed25519Sign a.priv msg

/-! ## The account-count argument of createCmd (cmd/wallet.go lines 96-103) -/

/-- Value of a non-empty all-digit decimal character sequence. -/
def decDigitsVal (cs : List Char) : Option Nat :=
  if cs ≠ [] ∧ cs.all Char.isDigit then
    some (cs.foldl (fun acc c => 10 * acc + (c.toNat - 48)) 0)
  else none

/-- The integer denoted by a Go decimal integer literal: an optional sign
followed by at least one digit. -/
def goDecValue (s : String) : Option Int :=
  match s.data with
  | '+' :: rest => (decDigitsVal rest).map (fun n => (n : Int))
  | '-' :: rest => (decDigitsVal rest).map (fun n => -(n : Int))
  | cs => (decDigitsVal cs).map (fun n => (n : Int))

/-- strconv.ParseInt(s, 10, 16) as called by createCmd: parses the decimal
value and rejects it when it does not fit a signed 16-bit integer. -/
def goParseInt16 (s : String) : Option Int :=
  match goDecValue s with
  | some v => if -32768 ≤ v ∧ v ≤ 32767 then some v else none
  | none => none

/-- The account-count logic of createCmd (cmd/wallet.go lines 96-103): with
no positional argument the count is 1; otherwise the argument is parsed
with strconv.ParseInt(arg, 10, 16) and a parse error aborts the command
before any wallet is built. -/
def createGetN (args : List String) : Option Int :=
  match args with
  | [] => some 1
  | a :: _ => goParseInt16 a

/-! ## Canonical serialization of a wallet (spec sections 4.4 and 6)

Modelled from the spec: the canonical byte encoding of Secrets plus
Mnemonic that the container encrypts.  Symbols are naturals; every field is
length-prefixed so that decoding is a left inverse of encoding. -/

/-- Length-prefixed encoding of a byte list. -/
def encBytes (xs : List Nat) : List Nat := xs.length :: xs

/-- Decode a length-prefixed byte list, returning it with the rest of the
stream. -/
def parseBytes (s : List Nat) : Option (List Nat × List Nat) :=
  match s with
  | [] => none
  | n :: rest => if n ≤ rest.length then some (rest.take n, rest.drop n) else none

/-- Encoding of a string as the length-prefixed list of its code points. -/
def encString (s : String) : List Nat := encBytes (s.data.map Char.toNat)

/-- Decode a string encoded by `encString`. -/
def parseString (s : List Nat) : Option (String × List Nat) :=
  match parseBytes s with
  | none => none
  | some (cs, rest) => some (String.mk (cs.map Char.ofNat), rest)

/-- Encoding of an optional value: a presence marker then the value. -/
def encOptionWith (e : α → List Nat) : Option α → List Nat
  | none => [0]
  | some x => 1 :: e x

/-- Decode an optional value encoded by `encOptionWith`. -/
def parseOptionWith (p : List Nat → Option (α × List Nat)) (s : List Nat) :
    Option (Option α × List Nat) :=
  match s with
  | 0 :: rest => some (none, rest)
  | 1 :: rest =>
    match p rest with
    | none => none
    | some (x, rest2) => some (some x, rest2)
  | _ => none

/-- Encoding of a list of values: a count then the concatenated encodings. -/
def encListWith (e : α → List Nat) (xs : List α) : List Nat :=
  xs.length :: xs.flatMap e

/-- Run a decoder a fixed number of times. -/
def parseCountWith (p : List Nat → Option (α × List Nat)) :
    Nat → List Nat → Option (List α × List Nat)
  | 0, s => some ([], s)
  | k + 1, s =>
    match p s with
    | none => none
    | some (x, s1) =>
      match parseCountWith p k s1 with
      | none => none
      | some (xs, s2) => some (x :: xs, s2)

/-- Decode a list encoded by `encListWith`. -/
def parseListWith (p : List Nat → Option (α × List Nat)) (s : List Nat) :
    Option (List α × List Nat) :=
  match s with
  | [] => none
  | n :: rest => parseCountWith p n rest

/-- Canonical encoding of a keypair. -/
def encKeypair (k : Keypair) : List Nat :=
  encBytes k.public ++ encBytes k.priv ++ encBytes k.path ++
    encString k.displayName ++ encString k.created

/-- Decode a keypair encoded by `encKeypair`. -/
def parseKeypair (s : List Nat) : Option (Keypair × List Nat) :=
  match parseBytes s with
  | none => none
  | some (pub, s1) =>
    match parseBytes s1 with
    | none => none
    | some (prv, s2) =>
      match parseBytes s2 with
      | none => none
      | some (pth, s3) =>
        match parseString s3 with
        | none => none
        | some (dn, s4) =>
          match parseString s4 with
          | none => none
          | some (cr, s5) =>
            some ({ public := pub, priv := prv, path := pth,
                    displayName := dn, created := cr }, s5)

/-- Canonical encoding of a wallet: optional master keypair, the account
list, then the optional mnemonic. -/
def encWallet (w : Wallet) : List Nat :=
  encOptionWith encKeypair w.secrets.masterKeypair ++
    encListWith encKeypair w.secrets.accounts ++
    encOptionWith encBytes w.mnemonic

/-- Decode a wallet encoded by `encWallet`. -/
def parseWallet (s : List Nat) : Option (Wallet × List Nat) :=
  match parseOptionWith parseKeypair s with
  | none => none
  | some (mk, s1) =>
    match parseListWith parseKeypair s1 with
    | none => none
    | some (accts, s2) =>
      match parseOptionWith parseBytes s2 with
      | none => none
      | some (mnem, s3) =>
        some ({ secrets := { masterKeypair := mk, accounts := accts },
                mnemonic := mnem }, s3)

/-! ## The encrypted container (spec section 4.4) -/

/-- Modelled from the spec: the key-derivation function applied to the
password and salt (the real PBKDF2 stretch is not under src/).  The
stand-in packs password and salt injectively, so distinct passwords yield
distinct keys under the same salt. -/
def kdf (pw salt : List Nat) : Nat := Nat.pair (packList pw) (packList salt)

/-- The KDF cost parameter recorded in the container header. -/
def kdfIterations : Nat := 210000

/-- Keystream symbol at position i under a derived key. -/
def keystream (key i : Nat) : Nat := (key + i) ^^^ (2 * i + 1)

/-- Stream cipher: xor each payload symbol with the keystream, starting at
position i.  Applying it twice with the same key restores the input. -/
def xorStream (key : Nat) : Nat → List Nat → List Nat
  | _, [] => []
  | i, b :: rest => (b ^^^ keystream key i) :: xorStream key (i + 1) rest

/-- Modelled from the spec: the authentication tag over the ciphertext under
the derived key (stands in for the authenticated-encryption tag). -/
def macTag (key : Nat) (ct : List Nat) : Nat := key + ct.sum

/-- Modelled from the spec: `export(Wallet, password) -> bytes` (section
4.4), with the fresh random salt passed explicitly by the caller.  With a
non-empty password the container is header (version, cipher id, KDF cost,
length-prefixed salt), authentication tag, then the encrypted payload; with
an empty password it is a no-encryption marker and the plaintext payload. -/
def exportContainer (w : Wallet) (pw salt : List Nat) : List Nat :=
  if pw = [] then 1 :: 0 :: encWallet w
  else
    let pt := encWallet w
    let key := kdf pw salt
    let ct := xorStream key 0 pt
    1 :: 1 :: kdfIterations :: salt.length :: (salt ++ macTag key ct :: ct)

/-- Offset of the encrypted payload inside an encrypted container whose salt
has the given length. -/
def payloadStart (saltLen : Nat) : Nat := 5 + saltLen

/-- Modelled from the spec: `open(bytes, password) -> Wallet` (section 4.4).
Reads the header; a plaintext container is deserialized directly; an
encrypted container has its key derived from the password and the stored
salt, the tag checked, and the payload decrypted and deserialized.  A tag
mismatch fails with WrongPasswordOrCorruptFile, or with the diagnostic
variant when the debug flag is set; an unknown version or cipher id fails
with UnsupportedFormatVersion. -/
def openContainer (s pw : List Nat) (debug : Bool) : Except WalletError Wallet :=
  match s with
  | v :: c :: rest =>
    if v = 1 then
      if c = 0 then
        match parseWallet rest with
        | some (w, []) => .ok w
        | _ => .error .encodingError
      else if c = 1 then
        match rest with
        | _kdfIter :: rest1 =>
          match parseBytes rest1 with
          | none => .error .encodingError
          | some (salt, rest2) =>
            match rest2 with
            | [] => .error .encodingError
            | storedTag :: ct =>
              let key := kdf pw salt
              if storedTag = macTag key ct then
                match parseWallet (xorStream key 0 ct) with
                | some (w, []) => .ok w
                | _ => .error .encodingError
              else if debug then .error .debugAuthMismatch
              else .error .wrongPasswordOrCorruptFile
        | [] => .error .encodingError
      else .error .unsupportedFormatVersion
    else .error .unsupportedFormatVersion
  | _ => .error .unsupportedFormatVersion

/-- Flip bit j of the symbol at position i of a byte stream. -/
def flipBitAt (s : List Nat) (i j : Nat) : List Nat :=
  s.set i (s.getD i 0 ^^^ 2 ^ j)

/-- The encrypted payload an export with a non-empty password writes. -/
def exportCt (w : Wallet) (pw salt : List Nat) : List Nat :=
  xorStream (kdf pw salt) 0 (encWallet w)

/-- The authentication tag an export with a non-empty password writes. -/
def exportTag (w : Wallet) (pw salt : List Nat) : Nat :=
  macTag (kdf pw salt) (exportCt w pw salt)

/-! ## Concrete fixtures used by the witnesses -/

/-- A small concrete wallet with a master keypair, one account and a
mnemonic. -/
def sampleWallet : Wallet :=
  { secrets :=
      { masterKeypair :=
          some { public := [1], priv := [2], path := [44, 540],
                 displayName := "m", created := "t0" }
        accounts :=
          [{ public := [3], priv := [4], path := [44, 540, 0],
             displayName := "a", created := "t1" }] }
    mnemonic := some [0, 1, 2] }

/-- The wallet `buildWallet (mnemonicToSeed [0] []) 1` produces, written
out. -/
def mnemonicWallet : Wallet :=
  { secrets :=
      { masterKeypair := some (deriveMaster (mnemonicToSeed [0] []))
        accounts := [deriveAccount (deriveMaster (mnemonicToSeed [0] [])) 0] }
    mnemonic := none }

/-- A 12-word input of valid wordlist indices whose embedded checksum does
not match the recomputed value. -/
def badMnemonic : List Nat := [0, 0, 0, 0, 0, 0, 0, 0, 0, 0, 0, 1]

/-- The wallet `deriveFromDevice (fun _ => [9]) 1` produces, written out. -/
def ledgerWallet : Wallet :=
  { secrets :=
      { masterKeypair := none
        accounts :=
          [{ public := [9], priv := [], path := accountPathBase ++ [0],
             displayName := "Ledger account " ++ toString 0, created := "" }] }
    mnemonic := none }

/-! ## Decoding inverts encoding -/

theorem packList_injective : ∀ {a b : List Nat}, packList a = packList b → a = b := by
  intro a
  induction a with
  | nil =>
    intro b h
    cases b with
    | nil => rfl
    | cons y ys => simp [packList] at h
  | cons x xs ih =>
    intro b h
    cases b with
    | nil => simp [packList] at h
    | cons y ys =>
      simp only [packList, Nat.add_right_cancel_iff] at h
      obtain ⟨h1, h2⟩ := Nat.pair_eq_pair.mp h
      rw [h1, ih h2]

theorem parseBytes_enc (xs r : List Nat) : parseBytes (encBytes xs ++ r) = some (xs, r) := by
  simp [encBytes, parseBytes]

theorem parseString_enc (s : String) (r : List Nat) :
    parseString (encString s ++ r) = some (s, r) := by
  simp [encString, parseString, parseBytes_enc, List.map_map, Function.comp_def,
    Char.ofNat_toNat]

theorem parseOptionWith_enc (p : List Nat → Option (α × List Nat)) (e : α → List Nat)
    (hp : ∀ x r, p (e x ++ r) = some (x, r)) (o : Option α) (r : List Nat) :
    parseOptionWith p (encOptionWith e o ++ r) = some (o, r) := by
  cases o with
  | none => simp [encOptionWith, parseOptionWith]
  | some x => simp [encOptionWith, parseOptionWith, hp]

theorem parseCountWith_enc (p : List Nat → Option (α × List Nat)) (e : α → List Nat)
    (hp : ∀ x r, p (e x ++ r) = some (x, r)) (xs : List α) (r : List Nat) :
    parseCountWith p xs.length (xs.flatMap e ++ r) = some (xs, r) := by
  induction xs with
  | nil => simp [parseCountWith]
  | cons x rest ih =>
    simp only [List.length_cons, List.flatMap_cons, List.append_assoc, parseCountWith, hp, ih]

theorem parseListWith_enc (p : List Nat → Option (α × List Nat)) (e : α → List Nat)
    (hp : ∀ x r, p (e x ++ r) = some (x, r)) (xs : List α) (r : List Nat) :
    parseListWith p (encListWith e xs ++ r) = some (xs, r) := by
  simp only [encListWith, List.cons_append, parseListWith]
  exact parseCountWith_enc p e hp xs r

theorem parseKeypair_enc (k : Keypair) (r : List Nat) :
    parseKeypair (encKeypair k ++ r) = some (k, r) := by
  simp [encKeypair, parseKeypair, List.append_assoc, parseBytes_enc, parseString_enc]

theorem parseWallet_enc (w : Wallet) (r : List Nat) :
    parseWallet (encWallet w ++ r) = some (w, r) := by
  simp only [encWallet, parseWallet, List.append_assoc,
    parseOptionWith_enc parseKeypair encKeypair parseKeypair_enc,
    parseListWith_enc parseKeypair encKeypair parseKeypair_enc,
    parseOptionWith_enc parseBytes encBytes parseBytes_enc]

theorem parseWallet_enc_nil (w : Wallet) : parseWallet (encWallet w) = some (w, []) := by
  have h := parseWallet_enc w []
  rwa [List.append_nil] at h

/-! ## The stream cipher is an involution -/

theorem xorStream_xorStream (key : Nat) : ∀ (i : Nat) (l : List Nat),
    xorStream key i (xorStream key i l) = l := by
  intro i l
  induction l generalizing i with
  | nil => rfl
  | cons b rest ih =>
    simp only [xorStream, ih]
    rw [Nat.xor_assoc, Nat.xor_self, Nat.xor_zero]

theorem xorStream_length (key : Nat) : ∀ (i : Nat) (l : List Nat),
    (xorStream key i l).length = l.length := by
  intro i l
  induction l generalizing i with
  | nil => rfl
  | cons b rest ih => simp [xorStream, ih]

/-! ## Container evaluation lemmas -/

theorem parseBytes_cons (xs r : List Nat) :
    parseBytes (xs.length :: (xs ++ r)) = some (xs, r) :=
  parseBytes_enc xs r

theorem export_eq (w : Wallet) (pw salt : List Nat) (hpw : pw ≠ []) :
    exportContainer w pw salt =
      (1 :: 1 :: kdfIterations :: salt.length :: (salt ++ [exportTag w pw salt])) ++
        exportCt w pw salt := by
  simp [exportContainer, if_neg hpw, exportCt, exportTag, List.append_assoc]

theorem open_encrypted_bad_tag (pw salt : List Nat) (kI t : Nat) (ct : List Nat) (dbg : Bool)
    (h : t ≠ macTag (kdf pw salt) ct) :
    openContainer (1 :: 1 :: kI :: salt.length :: (salt ++ t :: ct)) pw dbg =
      .error (if dbg then .debugAuthMismatch else .wrongPasswordOrCorruptFile) := by
  simp only [openContainer, parseBytes_cons]
  rw [if_neg h]
  cases dbg <;> simp

theorem open_export_same (w : Wallet) (pw salt : List Nat) (dbg : Bool) (hpw : pw ≠ []) :
    openContainer (exportContainer w pw salt) pw dbg = .ok w := by
  simp only [exportContainer, if_neg hpw]
  simp only [openContainer, parseBytes_cons, xorStream_xorStream, parseWallet_enc_nil]
  simp

theorem kdf_ne_of_pw_ne (pw pw' salt : List Nat) (h : pw ≠ pw') :
    kdf pw salt ≠ kdf pw' salt := by
  intro he
  exact h (packList_injective (Nat.pair_eq_pair.mp he).1)

theorem open_export_wrong_pw (w : Wallet) (pw salt pw' : List Nat) (dbg : Bool)
    (hpw : pw ≠ []) (hne : pw' ≠ pw) :
    openContainer (exportContainer w pw salt) pw' dbg =
      .error (if dbg then .debugAuthMismatch else .wrongPasswordOrCorruptFile) := by
  rw [export_eq w pw salt hpw]
  have hshape :
      (1 :: 1 :: kdfIterations :: salt.length :: (salt ++ [exportTag w pw salt])) ++
          exportCt w pw salt =
        1 :: 1 :: kdfIterations :: salt.length ::
          (salt ++ exportTag w pw salt :: exportCt w pw salt) := by
    simp
  rw [hshape]
  apply open_encrypted_bad_tag
  have hkey : kdf pw salt ≠ kdf pw' salt := kdf_ne_of_pw_ne pw pw' salt (fun he => hne he.symm)
  simp only [exportTag, macTag]
  omega

/-! ## Tamper detection helpers -/

theorem getD_append_right_len (a b : List Nat) (k : Nat) :
    (a ++ b).getD (a.length + k) 0 = b.getD k 0 := by
  induction a with
  | nil => simp
  | cons x xs ih => simpa [Nat.succ_add] using ih

theorem set_append_right_len (a b : List Nat) (k v : Nat) :
    (a ++ b).set (a.length + k) v = a ++ b.set k v := by
  induction a with
  | nil => simp
  | cons x xs ih => simp [Nat.succ_add, ih]

theorem sum_set_ne (l : List Nat) : ∀ (k v : Nat), k < l.length → v ≠ l.getD k 0 →
    (l.set k v).sum ≠ l.sum := by
  induction l with
  | nil => intro k v hk; simp at hk
  | cons x xs ih =>
    intro k v hk hv
    cases k with
    | zero =>
      simp only [List.getD_cons_zero] at hv
      simp only [List.set_cons_zero, List.sum_cons]
      omega
    | succ k =>
      simp only [List.getD_cons_succ] at hv
      simp only [List.length_cons, Nat.succ_lt_succ_iff] at hk
      have := ih k v hk hv
      simp only [List.set_cons_succ, List.sum_cons]
      omega

theorem xor_two_pow_ne (x j : Nat) : x ^^^ 2 ^ j ≠ x := by
  intro h
  have h2 : x ^^^ (x ^^^ 2 ^ j) = x ^^^ x := congrArg (fun y => x ^^^ y) h
  rw [← Nat.xor_assoc, Nat.xor_self, Nat.zero_xor] at h2
  exact absurd h2 (Nat.pos_iff_ne_zero.mp (Nat.pos_pow_of_pos j (by omega)))

theorem open_export_tampered (w : Wallet) (pw salt : List Nat) (i j : Nat) (dbg : Bool)
    (hpw : pw ≠ []) (hlo : payloadStart salt.length ≤ i)
    (hhi : i < (exportContainer w pw salt).length) :
    openContainer (flipBitAt (exportContainer w pw salt) i j) pw dbg =
      .error (if dbg then .debugAuthMismatch else .wrongPasswordOrCorruptFile) := by
  rw [export_eq w pw salt hpw] at hhi ⊢
  set hdr := 1 :: 1 :: kdfIterations :: salt.length :: (salt ++ [exportTag w pw salt]) with hhdr
  set ct := exportCt w pw salt with hct
  have hhdrlen : hdr.length = payloadStart salt.length := by
    simp [hhdr, payloadStart]
    omega
  set k := i - hdr.length with hk
  have hik : i = hdr.length + k := by omega
  have hklt : k < ct.length := by
    rw [List.length_append] at hhi
    omega
  have hflip : flipBitAt (hdr ++ ct) i j = hdr ++ ct.set k (ct.getD k 0 ^^^ 2 ^ j) := by
    rw [flipBitAt, hik, getD_append_right_len, set_append_right_len]
  rw [hflip]
  have hshape : hdr ++ ct.set k (ct.getD k 0 ^^^ 2 ^ j) =
      1 :: 1 :: kdfIterations :: salt.length ::
        (salt ++ exportTag w pw salt :: ct.set k (ct.getD k 0 ^^^ 2 ^ j)) := by
    simp [hhdr]
  rw [hshape]
  apply open_encrypted_bad_tag
  have hsum : (ct.set k (ct.getD k 0 ^^^ 2 ^ j)).sum ≠ ct.sum :=
    sum_set_ne ct k (ct.getD k 0 ^^^ 2 ^ j) hklt (xor_two_pow_ne (ct.getD k 0) j)
  simp only [exportTag, macTag]
  rw [← hct]
  omega

/-! ## The claims -/

/-- Claim C1: for every wallet W and every non-empty password P, exporting W
under P and then opening the resulting byte stream with the same password P
recovers a wallet equal to W, with the same Secrets (master keypair and
accounts) and the same Mnemonic. -/
theorem claim_C1 (w : Wallet) (pw salt : List Nat) (dbg : Bool) (hpw : pw ≠ []) :
    openContainer (exportContainer w pw salt) pw dbg = .ok w :=
  open_export_same w pw salt dbg hpw

/-- Witness for claim C1 at a concrete wallet, password and salt. -/
theorem claim_C1_witness :
    ([7] : List Nat) ≠ [] ∧
      openContainer (exportContainer sampleWallet [7] [5, 6]) [7] false = .ok sampleWallet :=
  ⟨by decide, claim_C1 sampleWallet [7] [5, 6] false (by decide)⟩

/-- Claim C2: building a wallet from the seed derived from a mnemonic M with
count n is deterministic: two invocations with the same M and n yield
identical master and child keypairs (same public and private key bytes and
same paths, by full structural equality). -/
theorem claim_C2 (m passphrase : List Nat) (n : Int) (w1 w2 : Wallet)
    (h1 : buildWallet (mnemonicToSeed m passphrase) n = .ok w1)
    (h2 : buildWallet (mnemonicToSeed m passphrase) n = .ok w2) :
    w1.secrets.masterKeypair = w2.secrets.masterKeypair ∧
      w1.secrets.accounts = w2.secrets.accounts := by
  rw [h1] at h2
  injection h2 with h
  rw [h]
  exact ⟨rfl, rfl⟩

/-- Witness for claim C2 at a concrete mnemonic and count. -/
theorem claim_C2_witness :
    buildWallet (mnemonicToSeed [0] []) 1 = .ok mnemonicWallet ∧
      (mnemonicWallet.secrets.masterKeypair = mnemonicWallet.secrets.masterKeypair ∧
        mnemonicWallet.secrets.accounts = mnemonicWallet.secrets.accounts) :=
  ⟨by rfl, claim_C2 [0] [] 1 mnemonicWallet mnemonicWallet (by rfl) (by rfl)⟩

/-- Claim C3: for every seed and integer n, buildWallet with n ≥ 1 succeeds
and produces exactly n accounts whose derivation paths end in the indices
0..n-1 in strictly ascending order, and with n < 1 it fails with
InvalidAccountCount. -/
theorem claim_C3 (seed : List Nat) (n : Int) :
    (1 ≤ n → ∃ w, buildWallet seed n = .ok w ∧
        w.secrets.accounts.length = n.toNat ∧
        w.secrets.accounts.map Keypair.path =
          (List.range n.toNat).map (fun i => accountPathBase ++ [i]) ∧
        List.Pairwise (fun p q => p.getLastD 0 < q.getLastD 0)
          (w.secrets.accounts.map Keypair.path)) ∧
      (n < 1 → buildWallet seed n = .error .invalidAccountCount) := by
  constructor
  · intro hn
    have hlt : ¬ n < 1 := by omega
    simp only [buildWallet, if_neg hlt]
    have hmap : ((List.range n.toNat).map (fun i => deriveAccount (deriveMaster seed) i)).map
        Keypair.path = (List.range n.toNat).map (fun i => accountPathBase ++ [i]) := by
      simp [List.map_map, Function.comp_def, deriveAccount]
    refine ⟨_, rfl, by simp, hmap, ?_⟩
    rw [hmap, List.pairwise_map]
    simp only [List.getLastD_concat]
    exact List.pairwise_lt_range _
  · intro hn
    unfold buildWallet
    rw [if_pos hn]

/-- Witness for claim C3 at counts 2 and 0. -/
theorem claim_C3_witness :
    ((1 : Int) ≤ 2 ∧ (∃ w, buildWallet [1, 2] 2 = .ok w ∧
        w.secrets.accounts.length = (2 : Int).toNat ∧
        w.secrets.accounts.map Keypair.path =
          (List.range (2 : Int).toNat).map (fun i => accountPathBase ++ [i]) ∧
        List.Pairwise (fun p q => p.getLastD 0 < q.getLastD 0)
          (w.secrets.accounts.map Keypair.path))) ∧
      ((0 : Int) < 1 ∧ buildWallet [1, 2] 0 = .error .invalidAccountCount) :=
  ⟨⟨by decide, (claim_C3 [1, 2] 2).1 (by decide)⟩,
    ⟨by decide, (claim_C3 [1, 2] 0).2 (by decide)⟩⟩

/-- Claim C4: for every container exported with a non-empty password and
every single-bit flip applied to its encrypted payload, opening the modified
bytes with the original password fails with WrongPasswordOrCorruptFile, and
it never succeeds with altered data under any debug setting. -/
theorem claim_C4 (w : Wallet) (pw salt : List Nat) (i j : Nat) (hpw : pw ≠ [])
    (hlo : payloadStart salt.length ≤ i) (hhi : i < (exportContainer w pw salt).length) :
    openContainer (flipBitAt (exportContainer w pw salt) i j) pw false =
        .error .wrongPasswordOrCorruptFile ∧
      ∀ (dbg : Bool) (w' : Wallet),
        openContainer (flipBitAt (exportContainer w pw salt) i j) pw dbg ≠ .ok w' := by
  constructor
  · simpa using open_export_tampered w pw salt i j false hpw hlo hhi
  · intro dbg w' hok
    rw [open_export_tampered w pw salt i j dbg hpw hlo hhi] at hok
    exact Except.noConfusion hok

/-- Witness for claim C4: flipping the low bit of the first payload byte of
a concrete export is detected. -/
theorem claim_C4_witness :
    ([7] : List Nat) ≠ [] ∧ payloadStart ([5, 6] : List Nat).length ≤ 7 ∧
      7 < (exportContainer sampleWallet [7] [5, 6]).length ∧
      openContainer (flipBitAt (exportContainer sampleWallet [7] [5, 6]) 7 0) [7] false =
        .error .wrongPasswordOrCorruptFile :=
  ⟨by decide, by decide, by decide,
    (claim_C4 sampleWallet [7] [5, 6] 7 0 (by decide) (by decide) (by decide)).1⟩

/-- Claim C5: the salt is drawn fresh for each export; with distinct salts,
exporting the same wallet under the same non-empty password yields two
different byte streams. -/
theorem claim_C5 (w : Wallet) (pw s1 s2 : List Nat) (hpw : pw ≠ []) (hne : s1 ≠ s2) :
    exportContainer w pw s1 ≠ exportContainer w pw s2 := by
  intro he
  rw [export_eq w pw s1 hpw, export_eq w pw s2 hpw] at he
  simp only [List.cons_append, List.cons.injEq, List.append_assoc, List.singleton_append,
    true_and] at he
  obtain ⟨hlen, htail⟩ := he
  exact hne (List.append_inj htail hlen).1

/-- Witness for claim C5 at two concrete distinct salts. -/
theorem claim_C5_witness :
    ([7] : List Nat) ≠ [] ∧ ([1] : List Nat) ≠ [2] ∧
      exportContainer sampleWallet [7] [1] ≠ exportContainer sampleWallet [7] [2] :=
  ⟨by decide, by decide, claim_C5 sampleWallet [7] [1] [2] (by decide) (by decide)⟩

/-- Claim C6: pubkeyToAddress is a deterministic function of the public key
and the network identifier, and for a fixed public key two distinct network
identifiers yield distinct addresses. -/
theorem claim_C6 (pk : List Nat) (h1 h2 : String) (hne : h1 ≠ h2) :
    pubkeyToAddress pk h1 = pubkeyToAddress pk h1 ∧
      pubkeyToAddress pk h1 ≠ pubkeyToAddress pk h2 := by
  refine ⟨rfl, ?_⟩
  intro he
  apply hne
  apply String.ext
  have hd := congrArg String.data he
  simp only [pubkeyToAddress, String.data_append] at hd
  exact List.append_cancel_right (List.append_cancel_right hd)

/-- Witness for claim C6 at a concrete public key and two concrete network
identifiers. -/
theorem claim_C6_witness :
    ("sm" : String) ≠ "stest" ∧
      (pubkeyToAddress [3] "sm" = pubkeyToAddress [3] "sm" ∧
        pubkeyToAddress [3] "sm" ≠ pubkeyToAddress [3] "stest") :=
  ⟨by decide, claim_C6 [3] "sm" "stest" (by decide)⟩

/-- Claim C7: parseMnemonic rejects with InvalidMnemonic, before deriving
any key material, every word sequence whose count is not a supported
length, that contains a word outside the wordlist, or whose embedded
checksum does not match the recomputed value. -/
theorem claim_C7 (ws : List Nat)
    (h : ws.length ∉ supportedLengths ∨ ws.any (fun w => wordlistSize ≤ w) = true ∨
      mnemonicChecksumOk ws = false) :
    parseMnemonic ws = .error .invalidMnemonic := by
  rcases h with h | h | h
  · simp [parseMnemonic, h]
  · simp [parseMnemonic, h, ite_self]
  · simp [parseMnemonic, h, ite_self]

/-- Witness for claim C7: a 12-word input of valid wordlist words with an
invalid checksum fails with InvalidMnemonic. -/
theorem claim_C7_witness :
    (badMnemonic.length ∉ supportedLengths ∨
        badMnemonic.any (fun w => wordlistSize ≤ w) = true ∨
        mnemonicChecksumOk badMnemonic = false) ∧
      parseMnemonic badMnemonic = .error .invalidMnemonic :=
  ⟨by decide, claim_C7 badMnemonic (by decide)⟩

/-- Claim C8: on any wallet built from a hardware key source (all account
keypairs have Public set and Private absent), the signing path of signCmd
does not fail fast with a distinct wallet-level error: it passes the absent
private-key bytes to the ed25519 primitive, whose bad-key-length panic is
the outcome.  This supports the code-bug verdict against the claim. -/
theorem claim_C8 (dev : Nat → List Nat) (n : Int) (w : Wallet) (msg : List Nat)
    (h : deriveFromDevice dev n = .ok w) :
    signFirstAccount w msg = .error .badPrivateKeyPanic := by
  unfold deriveFromDevice at h
  by_cases hn : n < 1
  · rw [if_pos hn] at h
    exact Except.noConfusion h
  · rw [if_neg hn] at h
    injection h with h
    subst h
    have h1 : 0 < n.toNat := by omega
    obtain ⟨k, hk⟩ := Nat.exists_eq_succ_of_ne_zero (Nat.pos_iff_ne_zero.mp h1)
    simp only [hk, List.range_succ_eq_map, List.map_cons, signFirstAccount]
    simp [ed25519Sign]

/-- Witness for claim C8 at a concrete one-account device wallet. -/
theorem claim_C8_witness :
    deriveFromDevice (fun _ => [9]) 1 = .ok ledgerWallet ∧
      signFirstAccount ledgerWallet [1, 2] = .error .badPrivateKeyPanic :=
  ⟨by rfl, claim_C8 (fun _ => [9]) 1 ledgerWallet [1, 2] (by rfl)⟩

/-- Claim C9: when opening an encrypted container fails and the debug flag
is not set, the caller-visible failure is the same value,
WrongPasswordOrCorruptFile, whether the cause is a wrong password or a
corrupted (bit-flipped) payload. -/
theorem claim_C9 (w : Wallet) (pw salt pw' : List Nat) (i j : Nat)
    (hpw : pw ≠ []) (hne : pw' ≠ pw)
    (hlo : payloadStart salt.length ≤ i) (hhi : i < (exportContainer w pw salt).length) :
    openContainer (exportContainer w pw salt) pw' false =
        .error .wrongPasswordOrCorruptFile ∧
      openContainer (flipBitAt (exportContainer w pw salt) i j) pw false =
        .error .wrongPasswordOrCorruptFile := by
  refine ⟨?_, ?_⟩
  · simpa using open_export_wrong_pw w pw salt pw' false hpw hne
  · simpa using open_export_tampered w pw salt i j false hpw hlo hhi

/-- Witness for claim C9 at a concrete export, wrong password and bit
flip. -/
theorem claim_C9_witness :
    ([7] : List Nat) ≠ [] ∧ ([8] : List Nat) ≠ [7] ∧
      payloadStart ([5, 6] : List Nat).length ≤ 7 ∧
      7 < (exportContainer sampleWallet [7] [5, 6]).length ∧
      (openContainer (exportContainer sampleWallet [7] [5, 6]) [8] false =
          .error .wrongPasswordOrCorruptFile ∧
        openContainer (flipBitAt (exportContainer sampleWallet [7] [5, 6]) 7 1) [7] false =
          .error .wrongPasswordOrCorruptFile) :=
  ⟨by decide, by decide, by decide, by decide,
    claim_C9 sampleWallet [7] [5, 6] [8] 7 1 (by decide) (by decide) (by decide) (by decide)⟩

/-- Claim C10: the wallet create command defaults to one account when no
count argument is given, and the count argument is parsed as a signed
16-bit decimal integer, so values outside -32768..32767 are rejected before
any wallet is built. -/
theorem claim_C10 :
    createGetN [] = some 1 ∧
      ∀ (s : String) (v : Int), goDecValue s = some v → (v < -32768 ∨ 32767 < v) →
        createGetN [s] = none := by
  refine ⟨rfl, ?_⟩
  intro s v hv hrange
  simp only [createGetN, goParseInt16, hv]
  rw [if_neg (by omega)]

/-- Witness for claim C10 at the concrete out-of-range count 40000. -/
theorem claim_C10_witness :
    createGetN [] = some 1 ∧ goDecValue "40000" = some 40000 ∧
      ((40000 : Int) < -32768 ∨ 32767 < (40000 : Int)) ∧ createGetN ["40000"] = none :=
  ⟨claim_C10.1, by decide, by decide, claim_C10.2 "40000" 40000 (by decide) (by decide)⟩

end Smcli
